import Mathlib

/-!
Verification development for the `MCPPrompt` argument-resolution layer
(`src/prompts/BasePrompt.ts`).

The TypeScript class `MCPPrompt` owns three pieces of logic that the claims
concern:

* `promptDefinition` — the introspection view, computing a `required` flag
  per field as `(schema.required !== false && schema.default === undefined)`;
* `getMessages(args)` — the default-merge + zod-validation pipeline:
  fields absent from `args` receive the explicit `default` if present, else
  (when `required !== false`) a type-appropriate sensible default chosen by
  the zod type name (`ZodString → ""`, `ZodBoolean → false`, `ZodNumber → 0`,
  `ZodArray → []`, `ZodObject → \x7b\x7d`), else stay absent; afterwards a
  `z.object` schema is built where a field's type is wrapped with
  `.optional()` whenever `required === false`, the type's own
  `isOptional()` holds, or a `default` exists, and the merged object is
  parsed against it (zod strips keys not in the schema);
* `fetch(url, init)` — a helper around the global `fetch` that throws
  `HTTP error! status: <status>` on a non-ok response and otherwise returns
  the JSON-decoded body.

The embedding below represents JavaScript objects as association lists from
`String` keys to JSON-like `Value`s (a key absent from the list corresponds
to a key absent from the object; the model has no `undefined` value), zod
type descriptors as the inductive `ZType`, and each of the three operations
as an executable Lean function translated line by line from the source.
-/

namespace BasePrompt

/-- JSON-like runtime values flowing through the pipeline: the values a
caller can put into the raw `args` object and that defaults can hold. -/
inductive Value where
  | vstr (s : String)
  | vnum (n : Int)
  | vbool (b : Bool)
  | varr (elems : List Value)
  | vobj (fields : List (String × Value))

/-- Zod type descriptors as used by prompt schemas: the constructors mirror
the zod type names the source dispatches on (`ZodString`, `ZodNumber`,
`ZodBoolean`, `ZodArray`, `ZodObject`, `ZodRecord`, `ZodOptional`). -/
inductive ZType where
  | zstring
  | znumber
  | zboolean
  | zarray (elem : ZType)
  | zobject
  | zrecord (elem : ZType)
  | zoptional (inner : ZType)
deriving DecidableEq, Repr

/-- Checks a present value against a zod type descriptor, as
`type.parse(value)` succeeding on a defined value: strings for `ZodString`,
numbers for `ZodNumber`, booleans for `ZodBoolean`, arrays of conforming
elements for `ZodArray`, plain objects for `ZodObject`/`ZodRecord`, and
`ZodOptional` delegating to its inner type on a defined value. -/
def conforms : ZType → Value → Bool
  | .zstring, .vstr _ => true
  | .znumber, .vnum _ => true
  | .zboolean, .vbool _ => true
  | .zarray e, .varr xs => xs.all (fun v => conforms e v)
  | .zobject, .vobj _ => true
  | .zrecord e, .vobj fields => fields.all (fun kv => conforms e kv.2)
  | .zoptional t, v => conforms t v
  | _, _ => false

/-- Models zod's `type.isOptional()`: whether the type accepts `undefined`,
true exactly for `ZodOptional`-wrapped types among the descriptors used
by the schemas. -/
def ZType.isOptional : ZType → Bool
  | .zoptional _ => true
  | _ => false

/-- Models parsing a possibly-absent object entry against a zod type, as
`z.object` does per key: a present value is checked with `conforms`; an
absent key is accepted exactly when the type itself accepts `undefined`. -/
def acceptsValue (t : ZType) (v : Option Value) : Bool :=
  match v with
  | some x => conforms t x
  | none => t.isOptional

/-- One entry of `PromptArgumentSchema`: a zod `type`, a `description`, an
optional `required` flag (tri-state, `none` when unset) and an optional
`default` value. -/
structure FieldSchema where
  type : ZType
  description : String
  required : Option Bool := none
  default : Option Value := none

/-- Association-list lookup modelling JavaScript property access `o[k]`
(and `k in o`, via `isSome`): the first binding of the key, if any. -/
def getKey {β : Type} : List (String × β) → String → Option β
  | [], _ => none
  | (k', v) :: rest, k => if k' = k then some v else getKey rest k

/-- Translates the ternary in `promptDefinition`:
`required: (schema.required !== false && schema.default === undefined) ? true : false`. -/
def describeRequired (fs : FieldSchema) : Bool :=
  if decide (fs.required ≠ some false) && fs.default.isNone then true else false

/-- One element of `promptDefinition.arguments`. -/
structure ArgDescriptor where
  name : String
  description : String
  required : Bool
deriving DecidableEq, Repr

/-- Translates the `arguments` list built by the `promptDefinition` getter:
one descriptor per schema entry, in schema order. -/
def promptDefinitionArgs (schema : List (String × FieldSchema)) : List ArgDescriptor :=
  schema.map (fun kv => ⟨kv.1, kv.2.description, describeRequired kv.2⟩)

/-- Translates the zod type-name dispatch of the sensible-default chain in
`getMessages` (lines 88-99): `ZodString → ''`, `ZodBoolean → false`,
`ZodNumber → 0`, `ZodArray → []`, `ZodObject → \x7b\x7d`; every other type
name falls through the chain and yields nothing. -/
def sensibleDefault : ZType → Option Value
  | .zstring => some (.vstr "")
  | .zboolean => some (.vbool false)
  | .znumber => some (.vnum 0)
  | .zarray _ => some (.varr [])
  | .zobject => some (.vobj [])
  | _ => none

/-- The value the default-merge loop body assigns for one missing field:
the explicit `default` when defined (`schema.default !== undefined`), else
the sensible default when `schema.required !== false`, else nothing. -/
def fieldDefault (fs : FieldSchema) : Option Value :=
  match fs.default with
  | some d => some d
  | none => if fs.required ≠ some false then sensibleDefault fs.type else none

/-- One iteration of the default-merge loop of `getMessages`: skip the field
when its key is already present (`key in argsWithDefaults`), otherwise add
the binding chosen by `fieldDefault`, if any (JavaScript assignment of a new
property appends it in insertion order). -/
def defaultStep (acc : List (String × Value)) (entry : String × FieldSchema) :
    List (String × Value) :=
  if (getKey acc entry.1).isSome then acc
  else
    match fieldDefault entry.2 with
    | some v => acc ++ [(entry.1, v)]
    | none => acc

/-- The default-merge loop of `getMessages` (lines 80-102): fold the loop
body over the schema entries in declaration order, starting from a copy of
the caller's `args`. -/
def applyDefaults (schema : List (String × FieldSchema)) (args : List (String × Value)) :
    List (String × Value) :=
  schema.foldl defaultStep args

/-- Translates the per-field optionality computation of Step 2 (line 106):
`schema.required === false || schema.type.isOptional?.() || schema.default !== undefined`. -/
def isOptionalField (fs : FieldSchema) : Bool :=
  decide (fs.required = some false) || fs.type.isOptional || fs.default.isSome

/-- The validation rule built for one field (line 107): the declared type,
wrapped with `.optional()` when `isOptionalField` holds. -/
def fieldRule (fs : FieldSchema) : ZType :=
  if isOptionalField fs then .zoptional fs.type else fs.type

/-- Whether the built rule accepts the (possibly absent) merged entry of one
field. -/
def validateField (fs : FieldSchema) (v : Option Value) : Bool :=
  acceptsValue (fieldRule fs) v

/-- Models `z.object(Object.fromEntries(schemaEntries)).parse(argsWithDefaults)`
(lines 110-111): every declared field's merged entry must satisfy its rule
(zod reports all violations together, succeeding only when every field
passes); on success the parsed object holds, in schema order, exactly the
declared keys that were present in the merged object — unknown keys are
stripped and absent optional keys stay absent. Failure is `none`. -/
def zparse (schema : List (String × FieldSchema)) (merged : List (String × Value)) :
    Option (List (String × Value)) :=
  if schema.all (fun kv => validateField kv.2 (getKey merged kv.1)) then
    some (schema.filterMap (fun kv => (getKey merged kv.1).map (fun v => (kv.1, v))))
  else none

/-- The argument-resolution pipeline of `getMessages` up to the call of
`generateMessages`: merge defaults, then validate; `none` models the thrown
`ZodError`. -/
def resolve (schema : List (String × FieldSchema)) (args : List (String × Value)) :
    Option (List (String × Value)) :=
  zparse schema (applyDefaults schema args)

/-- A settled HTTP response as the `fetch` helper observes it: the `ok`
flag, the numeric `status`, and the structured data `response.json()`
would produce. -/
structure HttpResponse where
  ok : Bool
  status : Nat
  json : Value

/-- Translates the protected `fetch` helper (lines 115-121), with the
collaborator's settled response as input: a non-ok response throws
`HTTP error! status: <status>`; an ok response returns the parsed body. -/
def fetch (response : HttpResponse) : Except String Value :=
  if !response.ok then
    Except.error ("HTTP error! status: " ++ toString response.status)
  else
    Except.ok response.json

/-- Derived characterization (proved below, not part of the translation):
the entry a key ends up with after the default-merge loop — the supplied
value when the key is in `args`, else the merge value of its schema entry,
else nothing. -/
def mergedValue (schema : List (String × FieldSchema)) (args : List (String × Value))
    (k : String) : Option Value :=
  match getKey args k with
  | some v => some v
  | none =>
      match getKey schema k with
      | some fs => fieldDefault fs
      | none => none

theorem getKey_append {β : Type} (l1 l2 : List (String × β)) (k : String) :
    getKey (l1 ++ l2) k =
      match getKey l1 k with
      | some v => some v
      | none => getKey l2 k := by
  induction l1 with
  | nil => rfl
  | cons hd tl ih =>
    obtain ⟨k', v⟩ := hd
    by_cases hk : k' = k
    · simp [getKey, hk]
    · simpa [getKey, hk] using ih

theorem getKey_eq_none_of_not_mem {β : Type} (l : List (String × β)) (k : String)
    (h : k ∉ l.map Prod.fst) : getKey l k = none := by
  induction l with
  | nil => rfl
  | cons hd tl ih =>
    obtain ⟨k', v⟩ := hd
    simp only [List.map_cons, List.mem_cons] at h
    push_neg at h
    have hne : k' ≠ k := fun hh => h.1 hh.symm
    simp [getKey, hne, ih h.2]

theorem mem_of_getKey_some {β : Type} {l : List (String × β)} {k : String} {v : β}
    (h : getKey l k = some v) : (k, v) ∈ l := by
  induction l with
  | nil => simp [getKey] at h
  | cons hd tl ih =>
    obtain ⟨k', v'⟩ := hd
    by_cases hk : k' = k
    · subst hk
      simp only [getKey, eq_self_iff_true, if_true, Option.some.injEq] at h
      subst h
      exact List.mem_cons_self _ _
    · simp only [getKey, if_neg hk] at h
      exact List.mem_cons_of_mem _ (ih h)

theorem getKey_of_mem_nodup {β : Type} {l : List (String × β)} {k : String} {v : β}
    (hnd : (l.map Prod.fst).Nodup) (h : (k, v) ∈ l) : getKey l k = some v := by
  induction l with
  | nil => simp at h
  | cons hd tl ih =>
    obtain ⟨k', v'⟩ := hd
    simp only [List.map_cons, List.nodup_cons] at hnd
    rcases List.mem_cons.mp h with h1 | h1
    · rw [Prod.mk.injEq] at h1
      obtain ⟨hk, hv⟩ := h1
      subst hk
      subst hv
      simp [getKey]
    · have hne : k' ≠ k := by
        intro hh
        subst hh
        exact hnd.1 (List.mem_map_of_mem Prod.fst h1)
      simp only [getKey, if_neg hne]
      exact ih hnd.2 h1

theorem getKey_defaultStep_of_some {acc : List (String × Value)} {k : String} {v : Value}
    (e : String × FieldSchema) (h : getKey acc k = some v) :
    getKey (defaultStep acc e) k = some v := by
  unfold defaultStep
  split
  · exact h
  · split
    · rw [getKey_append, h]
    · exact h

theorem getKey_defaultStep_ne {acc : List (String × Value)} {k : String}
    (e : String × FieldSchema) (h : e.1 ≠ k) :
    getKey (defaultStep acc e) k = getKey acc k := by
  unfold defaultStep
  split
  · rfl
  · split
    · rw [getKey_append]
      cases hv : getKey acc k with
      | some v => rfl
      | none => simp [getKey, h]
    · rfl

theorem getKey_defaultStep_self {acc : List (String × Value)}
    (e : String × FieldSchema) (h : getKey acc e.1 = none) :
    getKey (defaultStep acc e) e.1 = fieldDefault e.2 := by
  unfold defaultStep
  rw [h]
  simp only [Option.isSome_none, Bool.false_eq_true, if_false]
  cases hfd : fieldDefault e.2 with
  | some v => rw [getKey_append, h]; simp [getKey]
  | none => exact h

theorem getKey_applyDefaults (schema : List (String × FieldSchema))
    (args : List (String × Value)) (k : String)
    (hnd : (schema.map Prod.fst).Nodup) :
    getKey (applyDefaults schema args) k = mergedValue schema args k := by
  induction schema generalizing args with
  | nil =>
    simp only [applyDefaults, List.foldl_nil, mergedValue, getKey]
    cases getKey args k <;> rfl
  | cons e rest ih =>
    obtain ⟨k', fs'⟩ := e
    simp only [List.map_cons, List.nodup_cons] at hnd
    have hstep : applyDefaults ((k', fs') :: rest) args
        = applyDefaults rest (defaultStep args (k', fs')) := rfl
    rw [hstep, ih _ hnd.2]
    by_cases hk : k' = k
    · subst hk
      have hrest : getKey rest k' = none :=
        getKey_eq_none_of_not_mem _ _ hnd.1
      cases hv : getKey args k' with
      | some v =>
        have h1 : getKey (defaultStep args (k', fs')) k' = some v :=
          getKey_defaultStep_of_some _ hv
        simp [mergedValue, h1, hv]
      | none =>
        have h1 : getKey (defaultStep args (k', fs')) k' = fieldDefault fs' :=
          getKey_defaultStep_self (k', fs') hv
        simp only [mergedValue, h1, hv, hrest, getKey, eq_self_iff_true, if_true]
        cases fieldDefault fs' <;> rfl
    · have h1 : getKey (defaultStep args (k', fs')) k = getKey args k :=
        getKey_defaultStep_ne (k', fs') hk
      simp only [mergedValue, h1, getKey, if_neg hk]

theorem list_all_congr {α : Type} {l : List α} {f g : α → Bool}
    (h : ∀ a ∈ l, f a = g a) : l.all f = l.all g := by
  induction l with
  | nil => rfl
  | cons hd tl ih =>
    simp only [List.all_cons]
    rw [h hd (List.mem_cons_self _ _), ih fun a ha => h a (List.mem_cons_of_mem _ ha)]

theorem list_filterMap_congr {α β : Type} {l : List α} {f g : α → Option β}
    (h : ∀ a ∈ l, f a = g a) : l.filterMap f = l.filterMap g := by
  induction l with
  | nil => rfl
  | cons hd tl ih =>
    rw [List.filterMap_cons, List.filterMap_cons,
      h hd (List.mem_cons_self _ _), ih fun a ha => h a (List.mem_cons_of_mem _ ha)]

theorem zparse_congr {schema : List (String × FieldSchema)}
    {m1 m2 : List (String × Value)}
    (h : ∀ kv ∈ schema, getKey m1 kv.1 = getKey m2 kv.1) :
    zparse schema m1 = zparse schema m2 := by
  unfold zparse
  rw [list_all_congr fun kv hkv => by rw [h kv hkv],
    list_filterMap_congr fun kv hkv => by rw [h kv hkv]]

theorem zparse_eq_some {schema : List (String × FieldSchema)}
    {merged out : List (String × Value)} (h : zparse schema merged = some out) :
    (schema.all fun kv => validateField kv.2 (getKey merged kv.1)) = true ∧
      out = schema.filterMap fun kv => (getKey merged kv.1).map fun v => (kv.1, v) := by
  unfold zparse at h
  split at h
  · exact ⟨by assumption, (Option.some_inj.mp h).symm⟩
  · exact Option.noConfusion h

theorem getKey_zparse_filterMap {schema : List (String × FieldSchema)}
    {m : List (String × Value)} (k : String)
    (hnd : (schema.map Prod.fst).Nodup) :
    getKey (schema.filterMap fun kv => (getKey m kv.1).map fun v => (kv.1, v)) k =
      match getKey schema k with
      | some _ => getKey m k
      | none => none := by
  induction schema with
  | nil => rfl
  | cons e rest ih =>
    obtain ⟨k', fs'⟩ := e
    simp only [List.map_cons, List.nodup_cons] at hnd
    rw [List.filterMap_cons]
    by_cases hk : k' = k
    · subst hk
      cases hm : getKey m k' with
      | some v =>
        simp [getKey, hm]
      | none =>
        have hrest : getKey rest k' = none :=
          getKey_eq_none_of_not_mem _ _ hnd.1
        simp only [hm, Option.map_none']
        rw [ih hnd.2]
        simp [getKey, hrest, hm]
    · cases hm : getKey m k' with
      | some v =>
        simp only [hm, Option.map_some']
        simp only [getKey, if_neg hk]
        exact ih hnd.2
      | none =>
        simp only [hm, Option.map_none']
        rw [ih hnd.2]
        simp [getKey, hk]

theorem getKey_applyDefaults_of_some (schema : List (String × FieldSchema))
    {args : List (String × Value)} {k : String} {v : Value}
    (h : getKey args k = some v) : getKey (applyDefaults schema args) k = some v := by
  induction schema generalizing args with
  | nil => exact h
  | cons e rest ih => exact ih (getKey_defaultStep_of_some e h)

theorem sensibleDefault_of_isOptional (t : ZType) (h : t.isOptional = true) :
    sensibleDefault t = none := by
  cases t <;> first | rfl | simp [ZType.isOptional] at h

theorem validateField_none (fs : FieldSchema) :
    validateField fs none = isOptionalField fs := by
  cases hopt : isOptionalField fs with
  | true => simp [validateField, fieldRule, acceptsValue, hopt, ZType.isOptional]
  | false =>
    have h2 := hopt
    simp only [isOptionalField, Bool.or_eq_false_iff] at h2
    simp [validateField, fieldRule, acceptsValue, hopt, h2.1.2]

theorem validateField_some (fs : FieldSchema) (v : Value) :
    validateField fs (some v) = conforms fs.type v := by
  cases hopt : isOptionalField fs with
  | true => simp [validateField, fieldRule, acceptsValue, hopt, conforms]
  | false => simp [validateField, fieldRule, acceptsValue, hopt]

/-- C1 counterexample: the claimed iff fails on a field whose declared type
is optional (`z.string().optional()`) while `required` is unset and no
default exists: `promptDefinition` reports it `required = true`, yet the
Step 2 optionality predicate holds and resolution accepts the field's
absence (`resolve` succeeds with the field absent). -/
theorem C1_counterexample :
    describeRequired ⟨.zoptional .zstring, "Optional parameter", none, none⟩ = true ∧
      isOptionalField ⟨.zoptional .zstring, "Optional parameter", none, none⟩ = true ∧
      resolve [("opt", ⟨.zoptional .zstring, "Optional parameter", none, none⟩)] []
        = some [] :=
  ⟨rfl, rfl, rfl⟩

/-- C1 (amended): the introspection predicate implies the Step 2 effective
optionality predicate — whenever `promptDefinition` reports a field
`required = false`, the per-field validation rule of Step 2 is built
optional, so resolution accepts the field's absence. The converse does not
hold: a field whose declared type itself allows absence, with `required`
unset and no default, is effectively optional in Step 2 but is still
reported `required = true`. -/
theorem C1_describe_not_required_implies_optional (fs : FieldSchema)
    (h : describeRequired fs = false) : isOptionalField fs = true := by
  unfold describeRequired at h
  by_cases hr : fs.required = some false
  · simp [isOptionalField, hr]
  · cases hd : fs.default with
    | some d => simp [isOptionalField, hd]
    | none => simp [hr, hd] at h

/-- C1 witness: a field marked `required: false` is reported not required
and is effectively optional in Step 2. -/
theorem C1_witness :
    describeRequired ⟨.zstring, "Optional parameter", some false, none⟩ = false ∧
      isOptionalField ⟨.zstring, "Optional parameter", some false, none⟩ = true :=
  ⟨rfl, C1_describe_not_required_implies_optional _ rfl⟩

/-- C2: a field with no explicit default that is absent from the raw input
and is marked `required: false`, or whose type descriptor declares
optionality, is left absent by the default-merge loop (no placeholder is
synthesized), and the Step 2 validation rule for the field accepts its
absence. -/
theorem C2_optional_absent_stays_absent (schema : List (String × FieldSchema))
    (args : List (String × Value)) (k : String) (fs : FieldSchema)
    (hnd : (schema.map Prod.fst).Nodup)
    (hfs : getKey schema k = some fs)
    (hdef : fs.default = none)
    (habs : getKey args k = none)
    (hopt : fs.required = some false ∨ fs.type.isOptional = true) :
    getKey (applyDefaults schema args) k = none ∧ validateField fs none = true := by
  have hfd : fieldDefault fs = none := by
    rcases hopt with h | h
    · simp [fieldDefault, hdef, h]
    · simp [fieldDefault, hdef, sensibleDefault_of_isOptional _ h]
  constructor
  · rw [getKey_applyDefaults _ _ _ hnd]
    simp [mergedValue, habs, hfs, hfd]
  · rw [validateField_none]
    rcases hopt with h | h
    · simp [isOptionalField, h]
    · simp [isOptionalField, h]

/-- C2 witness: the always-optional field of the test schemas
(`optional: z.string().optional(), required: false`) stays absent and its
absence validates, on empty raw input. -/
theorem C2_witness :
    getKey (applyDefaults
        [("optional", ⟨.zoptional .zstring, "Optional parameter", some false, none⟩)] [])
        "optional" = none ∧
      validateField ⟨.zoptional .zstring, "Optional parameter", some false, none⟩ none
        = true :=
  C2_optional_absent_stays_absent _ _ _ _ (by simp) rfl rfl rfl (Or.inl rfl)

/-- C3 counterexample: the claim requires an empty object to be synthesized
for record types, but the sensible-default chain dispatches on the type name
`ZodObject` only — a required `z.record(...)` field with no default and
absent from the input is left absent by the merge, not set to the claimed
empty object. -/
theorem C3_counterexample :
    getKey (applyDefaults [("metadata", ⟨.zrecord .zstring, "Test object", none, none⟩)] [])
        "metadata" ≠ some (Value.vobj []) := by
  intro h
  have h' : (none : Option Value) = some (Value.vobj []) := h
  exact Option.noConfusion h'

/-- C3 (amended): for a field with `required` not explicitly `false`, no
explicit default and absent from the raw input, the merge step assigns
exactly the type-appropriate sensible default — empty string for `ZodString`,
`false` for `ZodBoolean`, `0` for `ZodNumber`, empty array for `ZodArray`,
empty object for `ZodObject` (but not for record types) — and for any other
type name it leaves the field absent, whereupon validation accepts the
absence exactly when the declared type itself is optional (so required-field
validation fails for types that do not allow absence). -/
theorem C3_sensible_default_synthesis (schema : List (String × FieldSchema))
    (args : List (String × Value)) (k : String) (fs : FieldSchema)
    (hnd : (schema.map Prod.fst).Nodup)
    (hfs : getKey schema k = some fs)
    (hdef : fs.default = none)
    (hreq : fs.required ≠ some false)
    (habs : getKey args k = none) :
    getKey (applyDefaults schema args) k = sensibleDefault fs.type ∧
      validateField fs none = fs.type.isOptional := by
  have hfd : fieldDefault fs = sensibleDefault fs.type := by
    simp [fieldDefault, hdef, hreq]
  constructor
  · rw [getKey_applyDefaults _ _ _ hnd]
    simp [mergedValue, habs, hfs, hfd]
  · rw [validateField_none]
    simp [isOptionalField, hreq, hdef]

/-- C3 witness: a required string field with no default synthesizes the
empty string on empty input, and its absence would not validate. -/
theorem C3_witness :
    getKey (applyDefaults [("message", ⟨.zstring, "Test message", none, none⟩)] [])
        "message" = sensibleDefault ZType.zstring ∧
      validateField ⟨.zstring, "Test message", none, none⟩ none
        = ZType.isOptional .zstring :=
  C3_sensible_default_synthesis [("message", ⟨.zstring, "Test message", none, none⟩)] []
    "message" ⟨.zstring, "Test message", none, none⟩ (by simp) rfl rfl (by simp) rfl

/-- C4: a field with an explicit default `d`, absent from the raw input, is
merged to exactly `d` (the explicit-default branch shadows the sensible
defaults), and on successful resolution the typed argument object holds
exactly `d` at that field. -/
theorem C4_explicit_default_precedence (schema : List (String × FieldSchema))
    (args : List (String × Value)) (k : String) (fs : FieldSchema) (d : Value)
    (out : List (String × Value))
    (hnd : (schema.map Prod.fst).Nodup)
    (hfs : getKey schema k = some fs)
    (hd : fs.default = some d)
    (habs : getKey args k = none) :
    getKey (applyDefaults schema args) k = some d ∧
      (resolve schema args = some out → getKey out k = some d) := by
  have hm : getKey (applyDefaults schema args) k = some d := by
    rw [getKey_applyDefaults _ _ _ hnd]
    simp [mergedValue, habs, hfs, fieldDefault, hd]
  refine ⟨hm, fun hres => ?_⟩
  unfold resolve at hres
  obtain ⟨hall, hout⟩ := zparse_eq_some hres
  rw [hout, getKey_zparse_filterMap k hnd]
  simp only [hfs]
  exact hm

/-- C4 witness: `count: z.number(), default 42` on empty input resolves to
exactly `42`. -/
theorem C4_witness :
    getKey (applyDefaults
        [("count", ⟨.znumber, "Test count", none, some (Value.vnum 42)⟩)] [])
        "count" = some (Value.vnum 42) ∧
      (resolve [("count", ⟨.znumber, "Test count", none, some (Value.vnum 42)⟩)] []
          = some [("count", Value.vnum 42)] →
        getKey [("count", Value.vnum 42)] "count" = some (Value.vnum 42)) :=
  C4_explicit_default_precedence _ _ _ _ _ _ (by simp) rfl rfl rfl

/-- C5: the default merge never overwrites a supplied field — a key present
in the raw input keeps exactly its supplied value through the merge, and,
when the key is schema-declared and resolution succeeds, through the typed
argument object as well. -/
theorem C5_supplied_values_preserved (schema : List (String × FieldSchema))
    (args : List (String × Value)) (k : String) (v : Value) (fs : FieldSchema)
    (out : List (String × Value))
    (hnd : (schema.map Prod.fst).Nodup)
    (hin : getKey args k = some v) :
    getKey (applyDefaults schema args) k = some v ∧
      (getKey schema k = some fs → resolve schema args = some out →
        getKey out k = some v) := by
  have hm : getKey (applyDefaults schema args) k = some v := by
    rw [getKey_applyDefaults _ _ _ hnd]
    simp [mergedValue, hin]
  refine ⟨hm, fun hfs hres => ?_⟩
  unfold resolve at hres
  obtain ⟨hall, hout⟩ := zparse_eq_some hres
  rw [hout, getKey_zparse_filterMap k hnd]
  simp only [hfs]
  exact hm

/-- C5 witness: supplying `message: "custom message"` over a schema whose
`message` field carries a default keeps the supplied value through merge
and through the typed output. -/
theorem C5_witness :
    getKey (applyDefaults
        [("message", ⟨.zstring, "Test message", none, some (Value.vstr "default message")⟩)]
        [("message", Value.vstr "custom message")]) "message"
      = some (Value.vstr "custom message") ∧
      (getKey [("message", (⟨.zstring, "Test message", none,
              some (Value.vstr "default message")⟩ : FieldSchema))] "message"
          = some (⟨.zstring, "Test message", none,
              some (Value.vstr "default message")⟩ : FieldSchema) →
        resolve [("message", ⟨.zstring, "Test message", none,
            some (Value.vstr "default message")⟩)]
          [("message", Value.vstr "custom message")]
          = some [("message", Value.vstr "custom message")] →
        getKey [("message", Value.vstr "custom message")] "message"
          = some (Value.vstr "custom message")) :=
  C5_supplied_values_preserved
    [("message", ⟨.zstring, "Test message", none, some (Value.vstr "default message")⟩)]
    [("message", Value.vstr "custom message")] "message" (Value.vstr "custom message")
    ⟨.zstring, "Test message", none, some (Value.vstr "default message")⟩
    [("message", Value.vstr "custom message")] (by simp) rfl

/-- C6: default resolution is idempotent — feeding a typed argument object
produced by a successful resolution back in as the raw input resolves again
to the same typed argument object. -/
theorem C6_resolve_idempotent (schema : List (String × FieldSchema))
    (x out : List (String × Value))
    (hnd : (schema.map Prod.fst).Nodup)
    (h : resolve schema x = some out) : resolve schema out = some out := by
  unfold resolve at h ⊢
  obtain ⟨hall, hout⟩ := zparse_eq_some h
  have hpt : ∀ kv ∈ schema,
      getKey (applyDefaults schema out) kv.1 = getKey (applyDefaults schema x) kv.1 := by
    intro kv hkv
    have hfs : getKey schema kv.1 = some kv.2 := getKey_of_mem_nodup hnd hkv
    have hok : getKey out kv.1 = getKey (applyDefaults schema x) kv.1 := by
      rw [hout, getKey_zparse_filterMap kv.1 hnd]
      simp only [hfs]
    cases hv : getKey (applyDefaults schema x) kv.1 with
    | some v =>
      have hov : getKey out kv.1 = some v := by rw [hok, hv]
      rw [getKey_applyDefaults _ _ _ hnd]
      simp [mergedValue, hov]
    | none =>
      have hov : getKey out kv.1 = none := by rw [hok, hv]
      have hmv : mergedValue schema x kv.1 = none := by
        rw [← getKey_applyDefaults schema x kv.1 hnd]
        exact hv
      have hfd : fieldDefault kv.2 = none := by
        unfold mergedValue at hmv
        cases hxv : getKey x kv.1 with
        | some w =>
          rw [hxv] at hmv
          exact Option.noConfusion hmv
        | none =>
          simp only [hxv, hfs] at hmv
          exact hmv
      rw [getKey_applyDefaults _ _ _ hnd]
      simp [mergedValue, hov, hfs, hfd]
  rw [zparse_congr hpt]
  exact h

/-- C6 witness: resolving the typed object produced from empty input over a
one-field defaulted schema reproduces it unchanged. -/
theorem C6_witness :
    resolve
        [("message", ⟨.zstring, "Test message", none, some (Value.vstr "default message")⟩)]
        [("message", Value.vstr "default message")]
      = some [("message", Value.vstr "default message")] :=
  C6_resolve_idempotent
    [("message", ⟨.zstring, "Test message", none, some (Value.vstr "default message")⟩)]
    [] [("message", Value.vstr "default message")] (by simp) rfl

/-- C7: an explicit default never suppresses a type error on a supplied
value — if the raw input supplies a value that does not conform to the
field's declared type, resolution fails, even though the field's validation
rule is wrapped as optional because of the default. -/
theorem C7_default_never_masks_type_error (schema : List (String × FieldSchema))
    (args : List (String × Value)) (k : String) (fs : FieldSchema) (d v : Value)
    (hfs : getKey schema k = some fs)
    (_hd : fs.default = some d)
    (hin : getKey args k = some v)
    (hbad : conforms fs.type v = false) :
    resolve schema args = none := by
  have hm : getKey (applyDefaults schema args) k = some v :=
    getKey_applyDefaults_of_some schema hin
  have hmem : (k, fs) ∈ schema := mem_of_getKey_some hfs
  have hfail : validateField fs (getKey (applyDefaults schema args) k) = false := by
    rw [hm, validateField_some, hbad]
  unfold resolve zparse
  split
  · next hcond =>
    exfalso
    have hx := List.all_eq_true.mp hcond (k, fs) hmem
    rw [hfail] at hx
    exact Bool.noConfusion hx
  · rfl

/-- C7 witness: `count: z.number(), default 42` with input
`count: "invalid"` is rejected (spec scenario 5). -/
theorem C7_witness :
    resolve [("count", ⟨.znumber, "Test count", none, some (Value.vnum 42)⟩)]
        [("count", Value.vstr "invalid")] = none :=
  C7_default_never_masks_type_error
    [("count", ⟨.znumber, "Test count", none, some (Value.vnum 42)⟩)]
    [("count", Value.vstr "invalid")] "count"
    ⟨.znumber, "Test count", none, some (Value.vnum 42)⟩
    (Value.vnum 42) (Value.vstr "invalid") rfl rfl rfl rfl

/-- C8: the fetch helper surfaces a non-ok response as a failure whose
message carries the response status and returns no parsed result, while an
ok response yields the JSON-parsed structured data. -/
theorem C8_fetch_status_error (r : HttpResponse) :
    (r.ok = false → fetch r = Except.error ("HTTP error! status: " ++ toString r.status)) ∧
      (r.ok = true → fetch r = Except.ok r.json) := by
  constructor
  · intro h
    simp [fetch, h]
  · intro h
    simp [fetch, h]

/-- C8 witness: a 404 response produces exactly the
`HTTP error! status: 404` failure. -/
theorem C8_witness :
    fetch ⟨false, 404, Value.vstr "x"⟩
      = Except.error ("HTTP error! status: " ++ toString (404 : Nat)) :=
  (C8_fetch_status_error ⟨false, 404, Value.vstr "x"⟩).1 rfl

/-- C10: raw-input keys that are not declared in the schema never cause a
failure — prepending an undeclared key leaves the entire resolution result
unchanged — and the typed argument object contains no binding for an
undeclared key (zod strips it). -/
theorem C10_extra_keys_ignored_and_stripped (schema : List (String × FieldSchema))
    (args : List (String × Value)) (k0 : String) (v0 : Value)
    (out : List (String × Value))
    (hnd : (schema.map Prod.fst).Nodup)
    (hk0 : getKey schema k0 = none) :
    resolve schema ((k0, v0) :: args) = resolve schema args ∧
      (resolve schema args = some out → getKey out k0 = none) := by
  constructor
  · unfold resolve
    apply zparse_congr
    intro kv hkv
    have hfs : getKey schema kv.1 = some kv.2 := getKey_of_mem_nodup hnd hkv
    have hne : k0 ≠ kv.1 := by
      intro hh
      rw [hh, hfs] at hk0
      exact Option.noConfusion hk0
    have hhd : getKey ((k0, v0) :: args) kv.1 = getKey args kv.1 := by
      simp [getKey, hne]
    rw [getKey_applyDefaults _ _ _ hnd, getKey_applyDefaults _ _ _ hnd]
    unfold mergedValue
    rw [hhd]
  · intro hres
    unfold resolve at hres
    obtain ⟨hall, hout⟩ := zparse_eq_some hres
    rw [hout, getKey_zparse_filterMap k0 hnd]
    simp only [hk0]

/-- C10 witness: an undeclared `extra` key neither changes the result of
resolution nor appears in the typed output. -/
theorem C10_witness :
    resolve [("message", ⟨.zstring, "Test message", none, none⟩)]
        [("extra", Value.vnum 1), ("message", Value.vstr "hi")]
      = resolve [("message", ⟨.zstring, "Test message", none, none⟩)]
          [("message", Value.vstr "hi")] ∧
      (resolve [("message", ⟨.zstring, "Test message", none, none⟩)]
          [("message", Value.vstr "hi")] = some [("message", Value.vstr "hi")] →
        getKey [("message", Value.vstr "hi")] "extra" = none) :=
  C10_extra_keys_ignored_and_stripped
    [("message", ⟨.zstring, "Test message", none, none⟩)]
    [("message", Value.vstr "hi")] "extra" (Value.vnum 1)
    [("message", Value.vstr "hi")] (by simp) rfl

end BasePrompt
